import Mathlib

/-!
Verification development for the prowgen configuration-resolution and job
materialization engine (tools/prowgen/pkg/generate.go and the related
package-pkg evolution of the same file).

Go maps are modelled as association lists with unique keys, Go zero values
as Lean default field values ("" for strings, 0 for ints, none for
pointers, [] for slices and maps), and fatal `exit` / returned `error`
paths as `Except String` results.  Deep copies are the identity in this
pure model, since aliasing is not observable on values.
-/

/-- Association-list model of a Go `map[string]α`.  Maps built by the Go
code have unique keys; `lookupG` finds the first binding. -/
abbrev GoMap (α : Type) := List (String × α)

/-- Lookup of a key in a Go map. -/
def lookupG {α : Type} : GoMap α → String → Option α
  | [], _ => none
  | p :: rest, k => if p.1 = k then some p.2 else lookupG rest k

/-- Assignment `m[k] = v` on a Go map: replaces the binding of `k` when
present, otherwise adds it at the end. -/
def setG {α : Type} : GoMap α → String → α → GoMap α
  | [], k, v => [(k, v)]
  | p :: rest, k, v => if p.1 = k then (k, v) :: rest else p :: setG rest k v

/-- All keys of a Go map are distinct (true of every map the Go code
builds, since Go map keys are unique). -/
def keysNodup {α : Type} (m : GoMap α) : Prop := (m.map Prod.fst).Nodup

instance {α : Type} (m : GoMap α) : Decidable (keysNodup m) := by
  unfold keysNodup; infer_instance

/-- Split of a character list at every occurrence of a separator
character. -/
def splitOnChar (sep : Char) : List Char → List (List Char)
  | [] => [[]]
  | c :: rest =>
    let r := splitOnChar sep rest
    if c = sep then [] :: r
    else (c :: r.headD []) :: r.tail

/-- Go's `strings.Split(s, sep)` for a one-character separator (the only
separators the code uses are `@` and `/`). -/
def goSplit (s : String) (sep : Char) : List String :=
  (splitOnChar sep s.data).map String.mk

/-- Resource requests/limits table of a `v1.ResourceRequirements` value
(quantities kept as opaque strings). -/
structure ResourceRequirements where
  limits : GoMap String := []
  requests : GoMap String := []
deriving DecidableEq, Repr

/-- Modelled from the spec: the `RequirementPreset` type lives in the
`tools/prowgen/pkg/spec` package, which is not under src/.  Per spec §3 and
§4.4 a requirement preset is a named, reusable structural mutation of a
job's execution environment (extra labels and annotation entries, volumes,
privilege, concurrency caps), and per §4.4 it may carry a cron override
used when materializing periodics.  Only the label/annotation entries and
the cron override are observable by the claims below. -/
structure RequirementPreset where
  labelEntries : GoMap String := []
  annotationEntries : GoMap String := []
  cron : String := ""
deriving DecidableEq, Repr

/-- Model of `v1.EnvVar` (the `ValueFrom` source is opaque to all claims,
so an env var is kept as a name/value pair). -/
structure EnvVar where
  name : String := ""
  value : String := ""
deriving DecidableEq, Repr

/-- The unit of inheritance (`CommonConfig` in generate.go): every field a
Job may override.  Field defaults are the Go zero values. -/
structure CommonConfig where
  gcsLogBucket : String := ""
  terminationGracePeriodSeconds : Int := 0
  interval : String := ""
  cron : String := ""
  cluster : String := ""
  nodeSelector : GoMap String := []
  annotations : GoMap String := []
  labels : GoMap String := []
  resourcePresets : GoMap ResourceRequirements := []
  requirementPresets : GoMap RequirementPreset := []
  requirements : List String := []
  excludedRequirements : List String := []
  env : List EnvVar := []
  image : String := ""
  imagePullPolicy : String := ""
  imagePullSecrets : List String := []
  serviceAccountName : String := ""
  regex : String := ""
  trigger : String := ""
  timeout : Option Int := none
  maxConcurrency : Int := 0
  resources : String := ""
  modifiers : List String := []
deriving DecidableEq, Repr

/-- A job template (`Job` in generate.go).  The embedded `CommonConfig` is
the `common` field; Go's field promotion is written out explicitly. -/
structure Job where
  common : CommonConfig := {}
  disableReleaseBranching : Bool := false
  name : String := ""
  command : List String := []
  args : List String := []
  tags : List String := []
  types : List String := []
  repos : List String := []
  gerritPresubmitLabel : String := ""
  gerritPostsubmitLabel : String := ""
  reporterConfig : Option Unit := none
deriving DecidableEq, Repr

/-- One CI catalog per source repository (`JobsConfig` in generate.go). -/
structure JobsConfig where
  common : CommonConfig := {}
  supportReleaseBranching : Bool := false
  repo : String := ""
  org : String := ""
  cloneURI : String := ""
  branches : List String := []
  matrix : GoMap (List String) := []
  jobs : List Job := []
deriving DecidableEq, Repr

/-- Dashboard-integration settings (`TestgridConfig` in generate.go). -/
structure TestgridConfig where
  enabled : Bool := false
  alertEmail : String := ""
  numFailuresToAlert : String := ""
deriving DecidableEq, Repr

/-- Process-wide defaults (`BaseConfig` in generate.go). -/
structure BaseConfig where
  common : CommonConfig := {}
  autogenHeader : String := ""
  pathAliases : GoMap String := []
  testgridConfig : TestgridConfig := {}
deriving DecidableEq, Repr

/-- The generator client (`Client` in generate.go). -/
structure Client where
  baseConfig : BaseConfig := {}
  longJobNamesAllowed : Bool := false
deriving DecidableEq, Repr

/-- Deep copy of a string map (`deepCopyMap` in generate.go, a yaml
marshal/unmarshal round trip): the identity on values. -/
def deepCopyMap (mp : GoMap String) : GoMap String := mp

/-- Deep copy of a `CommonConfig` (`deepCopyCommonConfig` in generate.go, a
yaml round trip): the identity on values. -/
def deepCopyCommonConfig (c : CommonConfig) : CommonConfig := c

/-- Mergo merge of a scalar field with zero value `zero`, as performed by
`mergo.Merge(&dst, src, mergo.WithAppendSlice, mergo.WithSliceDeepCopy)`.
`WithSliceDeepCopy` sets mergo's Overwrite flag, so a non-zero source field
overwrites the destination, while a zero source field leaves it alone. -/
def overZ {α : Type} [DecidableEq α] (zero : α) (dst src : α) : α :=
  if src = zero then dst else src

/-- Mergo merge of a map field under the Overwrite flag: every key of the
source map is written into the destination, so source bindings win. -/
def mergoMap {α : Type} (dst src : GoMap α) : GoMap α :=
  src.foldl (fun acc p => setG acc p.1 p.2) dst

/-- One `mergo.Merge(&mergedCommonConfig, config, mergo.WithAppendSlice,
mergo.WithSliceDeepCopy)` step from `mergeCommonConfig` in generate.go:
scalar and pointer fields are overwritten by non-zero source values
(Overwrite flag), map fields are merged key-wise with source bindings
winning, and slice fields are appended (`WithAppendSlice`). -/
def mergoMergeCommon (dst src : CommonConfig) : CommonConfig where
  gcsLogBucket := overZ "" dst.gcsLogBucket src.gcsLogBucket
  terminationGracePeriodSeconds :=
    overZ 0 dst.terminationGracePeriodSeconds src.terminationGracePeriodSeconds
  interval := overZ "" dst.interval src.interval
  cron := overZ "" dst.cron src.cron
  cluster := overZ "" dst.cluster src.cluster
  nodeSelector := mergoMap dst.nodeSelector src.nodeSelector
  annotations := mergoMap dst.annotations src.annotations
  labels := mergoMap dst.labels src.labels
  resourcePresets := mergoMap dst.resourcePresets src.resourcePresets
  requirementPresets := mergoMap dst.requirementPresets src.requirementPresets
  requirements := dst.requirements ++ src.requirements
  excludedRequirements := dst.excludedRequirements ++ src.excludedRequirements
  env := dst.env ++ src.env
  image := overZ "" dst.image src.image
  imagePullPolicy := overZ "" dst.imagePullPolicy src.imagePullPolicy
  imagePullSecrets := dst.imagePullSecrets ++ src.imagePullSecrets
  serviceAccountName := overZ "" dst.serviceAccountName src.serviceAccountName
  regex := overZ "" dst.regex src.regex
  trigger := overZ "" dst.trigger src.trigger
  timeout := overZ none dst.timeout src.timeout
  maxConcurrency := overZ 0 dst.maxConcurrency src.maxConcurrency
  resources := overZ "" dst.resources src.resources
  modifiers := dst.modifiers ++ src.modifiers

/-- Body of one iteration of the loop in `mergeCommonConfig`
(generate.go:229-242): the mergo merge of the deep-copied input, followed
by the NodeSelector special case, which replaces the accumulated selector
wholesale (deep-copied) whenever the current input declares a non-empty
one. -/
def mergeStep (merged : CommonConfig) (c : CommonConfig) : CommonConfig :=
  let m := mergoMergeCommon merged (deepCopyCommonConfig c)
  if c.nodeSelector.isEmpty then m
  else { m with nodeSelector := deepCopyMap c.nodeSelector }

/-- `mergeCommonConfig(configs ...CommonConfig)` from generate.go:227-244:
a left-to-right fold of `mergeStep` starting from the zero config. -/
def mergeCommonConfig (configs : List CommonConfig) : CommonConfig :=
  configs.foldl mergeStep {}

/-- String constants from generate.go:49-70. -/
def TestGridDashboard : String := "testgrid-dashboards"

/-- Alert-email annotation key (generate.go:51). -/
def TestGridAlertEmail : String := "testgrid-alert-email"

/-- Failure-threshold annotation key (generate.go:52). -/
def TestGridNumFailures : String := "testgrid-num-failures-to-alert"

/-- Name of the fallback resource preset (generate.go:56). -/
def DefaultResource : String := "default"

/-- Modifier tag hiding a job from reporting (generate.go:58). -/
def ModifierHidden : String := "hidden"

/-- Modifier tag making a presubmit non-blocking (generate.go:59). -/
def ModifierPresubmitOptional : String := "presubmit_optional"

/-- Modifier tag disabling automatic presubmit triggering (generate.go:60). -/
def ModifierPresubmitSkipped : String := "presubmit_skipped"

/-- Job type tag (generate.go:62). -/
def TypePostsubmit : String := "postsubmit"

/-- Job type tag (generate.go:63). -/
def TypePresubmit : String := "presubmit"

/-- Job type tag (generate.go:64). -/
def TypePeriodic : String := "periodic"

/-- Kubernetes label limit on job names (generate.go:69). -/
def maxJobNameLength : Nat := 63

/-- The `validate` helper (generate.go:526-537): `none` when the input is
one of the options, otherwise the violation message. -/
def validate (input : String) (options : List String) (description : String) : Option String :=
  if options.any (fun opt => input == opt) then none
  else some ("'" ++ input ++ "' is not a valid " ++ description ++
    ". Must be one of " ++ String.intercalate ", " options)

/-- Periodic-schedule checks of `ValidateJobConfig` (generate.go:291-305).
`cron.Parse` (robfig/cron) and `time.ParseDuration` are external library
parsers, abstracted as the total predicates `cronOk` and `durOk`; the
error text elides the parser's own message. -/
def periodicScheduleErrors (fileName : String) (cronOk durOk : String → Bool) (job : Job) : List String :=
  if job.common.cron ≠ "" ∧ job.common.interval ≠ "" then
    [fileName ++ ": cron and interval cannot be both set in periodic " ++ job.name]
  else if job.common.cron = "" ∧ job.common.interval = "" then
    [fileName ++ ": cron and interval cannot be both empty in periodic " ++ job.name]
  else if job.common.cron ≠ "" then
    (if cronOk job.common.cron then [] else
      [fileName ++ ": invalid cron string " ++ job.common.cron ++ " in periodic " ++ job.name])
  else if job.common.interval ≠ "" then
    (if durOk job.common.interval then [] else
      [fileName ++ ": cannot parse duration " ++ job.common.interval ++ " in periodic " ++ job.name])
  else []

/-- Per-job rule checks of `ValidateJobConfig` (generate.go:277-316), in
source order: image, resource-preset reference, modifier tags, periodic
schedule, type tags, extra-repository references. -/
def jobValidationErrors (fileName : String) (cronOk durOk : String → Bool)
    (resourcePresets : GoMap ResourceRequirements) (job : Job) : List String :=
  (if job.common.image = "" then
    [fileName ++ ": image must be set for job " ++ job.name] else []) ++
  (if job.common.resources ≠ "" ∧ lookupG resourcePresets job.common.resources = none then
    [fileName ++ ": job '" ++ job.name ++ "' has nonexistant resource '" ++
      job.common.resources ++ "'"] else []) ++
  (job.common.modifiers.filterMap (fun mod =>
    validate mod [ModifierHidden, ModifierPresubmitOptional, ModifierPresubmitSkipped] "status")) ++
  (if job.types.contains TypePeriodic then
    periodicScheduleErrors fileName cronOk durOk job else []) ++
  (job.types.filterMap (fun t =>
    validate t [TypePostsubmit, TypePresubmit, TypePeriodic] "type")) ++
  (job.repos.filterMap (fun repo =>
    if (goSplit repo '/').length ≠ 2 then
      some (fileName ++ ": repo " ++ repo ++ " not valid, should take form org/repo")
    else none))

/-- All violations collected by `ValidateJobConfig` (generate.go:268-316):
the org and repo checks followed by the per-job checks, every violation
appended to one multierror with no short-circuiting. -/
def validateJobConfigErrors (fileName : String) (cronOk durOk : String → Bool)
    (jobsConfig : JobsConfig) : List String :=
  (if jobsConfig.org = "" then [fileName ++ ": org must be set"] else []) ++
  (if jobsConfig.repo = "" then [fileName ++ ": repo must be set"] else []) ++
  (jobsConfig.jobs.map
    (jobValidationErrors fileName cronOk durOk jobsConfig.common.resourcePresets)).flatten

/-- Outcome of running `ValidateJobConfig`: either a normal return or
process termination via `exit(err, "validation failed")`. -/
inductive ValidateOutcome where
  | ok : ValidateOutcome
  | exited : List String → ValidateOutcome
deriving DecidableEq, Repr

/-- `(cli *Client) ValidateJobConfig` (generate.go:268-320): collects every
violation into one multierror and, when the aggregate is non-empty, calls
`exit` — terminating the run — instead of returning it. -/
def ValidateJobConfig (fileName : String) (cronOk durOk : String → Bool)
    (jobsConfig : JobsConfig) : ValidateOutcome :=
  let errs := validateJobConfigErrors fileName cronOk durOk jobsConfig
  if errs.isEmpty then .ok else .exited errs

/-- Whether a periodic job's schedule declaration is valid: exactly one of
cron/interval is set and it parses (rule statement from spec §4.3). -/
def periodicScheduleOk (cronOk durOk : String → Bool) (job : Job) : Bool :=
  (job.common.cron != "" && job.common.interval == "" && cronOk job.common.cron) ||
  (job.common.cron == "" && job.common.interval != "" && durOk job.common.interval)

/-- Rule-by-rule violation count of one job, written independently of the
error-message plumbing: one count per violated rule instance. -/
def jobViolationCount (cronOk durOk : String → Bool)
    (resourcePresets : GoMap ResourceRequirements) (job : Job) : Nat :=
  (if job.common.image = "" then 1 else 0) +
  (if job.common.resources ≠ "" ∧ lookupG resourcePresets job.common.resources = none then 1
    else 0) +
  (job.common.modifiers.countP (fun mod =>
    !([ModifierHidden, ModifierPresubmitOptional, ModifierPresubmitSkipped].any
      (fun opt => mod == opt)))) +
  (if job.types.contains TypePeriodic then
    (if periodicScheduleOk cronOk durOk job then 0 else 1) else 0) +
  (job.types.countP (fun t =>
    !([TypePostsubmit, TypePresubmit, TypePeriodic].any (fun opt => t == opt)))) +
  (job.repos.countP (fun repo => decide ((goSplit repo '/').length ≠ 2)))

/-- Rule-by-rule violation count of a whole catalog. -/
def catalogViolationCount (cronOk durOk : String → Bool) (jobsConfig : JobsConfig) : Nat :=
  (if jobsConfig.org = "" then 1 else 0) +
  (if jobsConfig.repo = "" then 1 else 0) +
  (jobsConfig.jobs.map
    (jobViolationCount cronOk durOk jobsConfig.common.resourcePresets)).sum

/-- Character class of the variable-substitution regex
`\$\([_a-zA-Z0-9.-]+(\.[_a-zA-Z0-9.-]+)*\)` (generate.go:66).  The second
group of the pattern is subsumed by the first class, which already allows
the dot, so a match body is simply one or more class characters. -/
def isSubstChar (c : Char) : Bool :=
  c.isAlpha || c.isDigit || c == '_' || c == '.' || c == '-'

/-- Longest prefix of substitution-class characters and the rest. -/
def takeSubstChars : List Char → List Char × List Char
  | [] => ([], [])
  | c :: rest =>
    if isSubstChar c then
      let (a, b) := takeSubstChars rest
      (c :: a, b)
    else ([], c :: rest)

/-- Final step of matching the substitution regex: after the greedy class
run, the next character must be the closing parenthesis. -/
def finishSubstMatch (name : List Char) : List Char → Option (String × List Char)
  | c3 :: rest3 => if c3 = ')' then some (String.mk name, rest3) else none
  | [] => none

/-- Attempt to match the substitution regex at the head of the input:
literal `$(`, one or more class characters, literal `)`.  Returns the
match body and the input after the match, exactly as Go's regexp engine
matches this pattern at one position. -/
def trySubstMatch (l : List Char) : Option (String × List Char) :=
  match l with
  | c1 :: c2 :: rest =>
    if c1 = '$' && c2 = '(' then
      if (takeSubstChars rest).1.isEmpty then none
      else finishSubstMatch (takeSubstChars rest).1 (takeSubstChars rest).2
    else none
  | _ => none

/-- Fueled scanning loop (structural recursion on the fuel, so that the
kernel can evaluate it; every step consumes at least one character, so a
fuel equal to the input length never runs out). -/
def scanSubstAux (fuel : Nat) (l : List Char) : List String :=
  match fuel, l with
  | _, [] => []
  | 0, _ => []
  | fuel + 1, l =>
    match trySubstMatch l with
    | some (nm, rest3) => nm :: scanSubstAux fuel rest3
    | none =>
      match l with
      | [] => []
      | _ :: rest => scanSubstAux fuel rest

/-- Leftmost non-overlapping scan of `FindAllString` with the match
delimiters stripped (generate.go:890-914): at each position, a match is
taken whole and scanning resumes after it, otherwise scanning advances one
character. -/
def scanSubstExprs (l : List Char) : List String :=
  scanSubstAux l.length l

/-- `validateString` (generate.go:895-910): the scanned expression bodies,
deduplicated keeping first occurrences (the Go code tracks seen
expressions in a set). -/
def validateString (value : String) : List String :=
  (scanSubstExprs value.data).foldl
    (fun acc e => if acc.contains e then acc else acc ++ [e]) []

/-- `getVarSubstitutionExpressions` (generate.go:890-893). -/
def getVarSubstitutionExpressions (yamlStr : String) : List String :=
  validateString yamlStr

/-- Fueled replacement loop (structural recursion on the fuel; every step
consumes at least one character of a non-empty pattern match or one plain
character, so a fuel equal to the input length never runs out). -/
def replaceListAux (pat rep : List Char) (fuel : Nat) (s : List Char) : List Char :=
  match fuel, s with
  | _, [] => []
  | 0, s => s
  | fuel + 1, c :: rest =>
    if pat ≠ [] ∧ pat.isPrefixOf (c :: rest) then
      rep ++ replaceListAux pat rep fuel ((c :: rest).drop pat.length)
    else c :: replaceListAux pat rep fuel rest

/-- Replacement of every non-overlapping occurrence of a (non-empty)
pattern, left to right (`strings.ReplaceAll`). -/
def replaceList (pat rep : List Char) (s : List Char) : List Char :=
  replaceListAux pat rep s.length s

/-- `replace` (generate.go:885-887): replaces every occurrence of the
placeholder `$(matrix.<key>)` by the value. -/
def replace (str expKey expVal : String) : String :=
  String.mk (replaceList ("$(matrix." ++ expKey ++ ")").data expVal.data str.data)

/-- `resolveCombinations` (generate.go:872-883): recursive backtracking
over the collected dimensions; at the base case the fully substituted
document is emitted. -/
def resolveCombinations (combs : List String) (dest : String)
    (matrix : GoMap (List String)) : List String :=
  match combs with
  | [] => [dest]
  | c :: rest =>
    (((lookupG matrix c).getD []).map
      (fun v => resolveCombinations rest (replace dest c v) matrix)).flatten

/-- The comb-collection loop of `applyMatrix` (generate.go:855-865): keeps
the expressions with the `matrix.` marker, stripped to the dimension name;
an undeclared dimension is a fatal error naming it. -/
def collectCombs (subsExps : List String) (matrix : GoMap (List String)) :
    Except String (List String) :=
  match subsExps with
  | [] => .ok []
  | exp :: rest =>
    if "matrix.".data.isPrefixOf exp.data then
      let dim := String.mk (exp.data.drop 7)
      if (lookupG matrix dim).isSome then
        (collectCombs rest matrix).map (fun combs => dim :: combs)
      else .error (dim ++ ": dimension is not configured in the matrix")
    else collectCombs rest matrix

/-- `applyMatrix` (generate.go:849-870): a document with no substitution
expressions at all is returned unchanged as a singleton; otherwise the
referenced matrix dimensions are collected and the combinations
resolved. -/
def applyMatrix (yamlStr : String) (matrix : GoMap (List String)) :
    Except String (List String) :=
  let subsExps := getVarSubstitutionExpressions yamlStr
  if subsExps.isEmpty then .ok [yamlStr]
  else (collectCombs subsExps matrix).map
    (fun combs => resolveCombinations combs yamlStr matrix)

/-- The distinct matrix dimensions referenced by `$(matrix.<dim>)`
placeholders in a serialized template, in first-appearance order. -/
def matrixDims (yamlStr : String) : List String :=
  (getVarSubstitutionExpressions yamlStr).filterMap (fun exp =>
    if "matrix.".data.isPrefixOf exp.data then some (String.mk (exp.data.drop 7)) else none)

/-- Modelled from the spec: `config.DefaultTriggerFor` belongs to the
external k8s prow config library (not part of this repository).  The
claims only depend on which names a default trigger phrase is derived
from, so a simple executable stand-in is used. -/
def DefaultTriggerFor (name : String) : String :=
  "/test " ++ name

/-- Modelled from the spec: `client.GerritReportLabel` is a constant of
the external prow gerrit client library; its exact value is irrelevant to
the claims. -/
def GerritReportLabel : String := "prow.k8s.io/gerrit-report-label"

/-- `mergeMaps` (generate.go:935-945): merges maps left to right into a
fresh map; a key bound in several maps takes the value of the last map
containing it. -/
def mergeMaps (mps : List (GoMap String)) : GoMap String :=
  mps.foldl (fun newMap mp => mp.foldl (fun acc p => setG acc p.1 p.2) newMap) []

/-- Annotation injection of the part_000 evolution of `ConvertJobConfig`
(src/unnamed/part_000:287-293, 326-334, 366-374): `mergo.Merge(&dst, src)`
with no options copies only source keys whose destination binding is
missing or empty, so destination (user-supplied) values win. -/
def mergoMapFill (dst src : GoMap String) : GoMap String :=
  src.foldl (fun acc p =>
    match lookupG acc p.1 with
    | none => acc ++ [(p.1, p.2)]
    | some v => if v = "" then setG acc p.1 p.2 else acc) dst

/-- `strings.TrimSuffix`. -/
def trimSuffix (s suf : String) : String :=
  if suf.data.isSuffixOf s.data then
    String.mk (s.data.take (s.data.length - suf.data.length))
  else s

/-- Model of `prowjob.Refs`: a checkout descriptor. -/
structure Refs where
  org : String := ""
  repo : String := ""
  baseRef : String := ""
  pathAlias : String := ""
  cloneURI : String := ""
deriving DecidableEq, Repr

/-- One iteration of the loop of `createExtraRefs` (generate.go:733-757):
an optional `@branch` overrides the default branch, the repo is the text
after the last slash, the org is the rest, a path alias is attached when
configured for the org, and an org containing a dot is treated as a Gerrit
org and given an explicit clone URI. -/
def extraRef (extraRepo defaultBranch : String) (pathAliases : GoMap String) : Refs :=
  let repobranch := goSplit extraRepo '@'
  let branch := repobranch.getD 1 defaultBranch
  let orgrepo := repobranch.headD ""
  let repo := (goSplit orgrepo '/').getLastD ""
  let org := trimSuffix orgrepo ("/" ++ repo)
  { org := org, repo := repo, baseRef := branch,
    pathAlias :=
      match lookupG pathAliases org with
      | some pa => pa ++ "/" ++ repo
      | none => "",
    cloneURI := if org.data.contains '.' then "https://" ++ orgrepo else "" }

/-- `createExtraRefs` (generate.go:731-760). -/
def createExtraRefs (extraRepos : List String) (defaultBranch : String)
    (pathAliases : GoMap String) : List Refs :=
  extraRepos.map (fun r => extraRef r defaultBranch pathAliases)

/-- Model of `v1.Container` restricted to the fields generate.go sets.  An
absent resources entry leaves `c.Resources` at its zero value, modelled as
`none`. -/
structure Container where
  image : String := ""
  privileged : Bool := true
  command : List String := []
  args : List String := []
  env : List EnvVar := []
  imagePullPolicy : String := ""
  resources : Option ResourceRequirements := none
deriving DecidableEq, Repr

/-- `createContainer` (generate.go:637-665): job env wins the slot when
non-empty (with the config env appended), the resource preset name falls
back to `default` when the job declares none, and the container resources
are set only when the looked-up preset exists in the table. -/
def createContainer (jobConfig : JobsConfig) (job : Job)
    (resources : GoMap ResourceRequirements) : List Container :=
  let envs := if job.common.env.isEmpty then jobConfig.common.env
    else job.common.env ++ jobConfig.common.env
  let jobResource := if job.common.resources ≠ "" then job.common.resources else DefaultResource
  [{ image := job.common.image,
     command := job.command,
     args := job.args,
     env := envs,
     imagePullPolicy := job.common.imagePullPolicy,
     resources := lookupG resources jobResource }]

/-- Model of `config.JobBase` restricted to the fields generate.go sets
(`pathAlias` and `extraRefs` stand for the embedded UtilityConfig, and the
decoration config is flattened into the timeout/GCS fields). -/
structure JobBase where
  name : String := ""
  maxConcurrency : Int := 0
  containers : List Container := []
  nodeSelector : GoMap String := []
  imagePullSecrets : List String := []
  serviceAccountName : String := ""
  terminationGracePeriodSeconds : Option Int := none
  decorate : Bool := false
  pathAlias : String := ""
  extraRefs : List Refs := []
  reporterConfig : Option Unit := none
  labels : GoMap String := []
  annotations : GoMap String := []
  cluster : String := ""
  decorationTimeout : Option Int := none
  gcsBucket : String := ""
  gcsPathStrategy : String := ""
deriving DecidableEq, Repr

/-- `(cli *Client) createJobBase` (generate.go:667-729): a name longer
than 63 (Go `len`, i.e. `String.utf8ByteSize`) is a fatal error naming the
job unless long names are allowed; otherwise the base job is assembled
from the resolved job fields. -/
def createJobBase (cli : Client) (baseConfig : BaseConfig) (jobConfig : JobsConfig) (job : Job)
    (name branch : String) (resources : GoMap ResourceRequirements) : Except String JobBase :=
  if name.utf8ByteSize > maxJobNameLength ∧ ¬cli.longJobNamesAllowed then
    .error ("job name exceeds " ++ toString maxJobNameLength ++ " character limit '" ++ name ++ "'")
  else .ok
    { name := name,
      maxConcurrency := job.common.maxConcurrency,
      containers := createContainer jobConfig job resources,
      nodeSelector := job.common.nodeSelector,
      imagePullSecrets := job.common.imagePullSecrets,
      serviceAccountName := job.common.serviceAccountName,
      terminationGracePeriodSeconds :=
        if job.common.terminationGracePeriodSeconds ≠ 0 then
          some job.common.terminationGracePeriodSeconds
        else none,
      decorate := true,
      extraRefs := createExtraRefs job.repos branch baseConfig.pathAliases,
      reporterConfig := job.reporterConfig,
      labels := job.common.labels,
      annotations := job.common.annotations,
      cluster := job.common.cluster,
      decorationTimeout := job.common.timeout,
      gcsBucket := job.common.gcsLogBucket,
      gcsPathStrategy := if job.common.gcsLogBucket ≠ "" then "explicit" else "" }

/-- Model of `config.Presubmit` restricted to the fields generate.go sets. -/
structure Presubmit where
  base : JobBase := {}
  alwaysRun : Bool := false
  brancherBranches : List String := []
  trigger : String := ""
  runIfChanged : String := ""
  optional : Bool := false
  skipReport : Bool := false
deriving DecidableEq, Repr

/-- Model of `config.Postsubmit` restricted to the fields generate.go sets. -/
structure Postsubmit where
  base : JobBase := {}
  brancherBranches : List String := []
  runIfChanged : String := ""
  skipReport : Bool := false
deriving DecidableEq, Repr

/-- Model of `config.Periodic` restricted to the fields generate.go sets. -/
structure Periodic where
  base : JobBase := {}
  interval : String := ""
  cron : String := ""
  tags : List String := []
deriving DecidableEq, Repr

/-- `applyModifiersPresubmit` (generate.go:798-813).  The hidden modifier
also installs an empty Slack reporter config, indistinguishable from any
other set reporter config in this model. -/
def applyModifiersPresubmit (presubmit : Presubmit) (jobModifiers : List String) : Presubmit :=
  jobModifiers.foldl (fun p modifier =>
    if modifier = ModifierPresubmitOptional then { p with optional := true }
    else if modifier = ModifierHidden then
      { p with skipReport := true, base := { p.base with reporterConfig := some () } }
    else if modifier = ModifierPresubmitSkipped then { p with alwaysRun := false }
    else p) presubmit

/-- `applyModifiersPostsubmit` (generate.go:815-830): only the hidden
modifier has a postsubmit effect. -/
def applyModifiersPostsubmit (postsubmit : Postsubmit) (jobModifiers : List String) : Postsubmit :=
  jobModifiers.foldl (fun p modifier =>
    if modifier = ModifierHidden then
      { p with skipReport := true, base := { p.base with reporterConfig := some () } }
    else p) postsubmit

/-- Modelled from the spec: `resolveRequirements` lives in a preset
package that is not under src/.  Per spec §4.4 each requirement preset is
applied in declaration order as a structural mutation of the job's
execution environment; the part observable through the claims — extra
annotation and label entries — is inserted into the job's maps. -/
def resolveRequirements (annotations labels : GoMap String)
    (presets : List RequirementPreset) : GoMap String × GoMap String :=
  presets.foldl (fun al p =>
    (p.annotationEntries.foldl (fun acc q => setG acc q.1 q.2) al.1,
     p.labelEntries.foldl (fun acc q => setG acc q.1 q.2) al.2))
    (annotations, labels)

/-- `applyRequirements` (generate.go:762-796): requirement and excluded
names are validated against the preset table (a failure is fatal), then the
non-excluded presets are resolved in declaration order. -/
def applyRequirements (job : JobBase) (requirements blockedRequirements : List String)
    (presetMap : GoMap RequirementPreset) : Except String JobBase :=
  let validRequirements := presetMap.map Prod.fst
  let errs :=
    (requirements.filterMap (fun req => validate req validRequirements "requirements")) ++
    (blockedRequirements.filterMap (fun req =>
      validate req validRequirements "blocked_requirements"))
  if errs.isEmpty then
    let presets := (requirements.filter (fun req => !blockedRequirements.contains req)).map
      (fun req => (lookupG presetMap req).getD {})
    let al := resolveRequirements job.annotations job.labels presets
    .ok { job with annotations := al.1, labels := al.2 }
  else .error ("validation failed: " ++ String.intercalate "; " errs)

/-- Presubmit trigger assignment of generate.go:376-380: the trigger stays
at its zero value unless a custom trigger phrase is declared, in which
case the default trigger for the materialized name is combined with the
custom phrase anchored to line start. -/
def presubmitTriggerGen (name customTrigger : String) : String :=
  if customTrigger = "" then ""
  else "(" ++ DefaultTriggerFor name ++ ")|((?m)^" ++ customTrigger ++ "(\\s+|$))"

/-- Go's `strings.Join`. -/
def goJoin (sep : String) : List String → String
  | [] => ""
  | [x] => x
  | x :: rest => x ++ sep ++ goJoin sep rest

/-- Presubmit trigger construction of the part_000 evolution
(src/unnamed/part_000:275-285): always the alternation of the default
trigger for the job's base name and the default trigger for the
materialized name, plus the custom phrase anchored to line start when one
is declared. -/
def presubmitTriggerJoined (jobName name customTrigger : String) : String :=
  let triggers := ["(" ++ DefaultTriggerFor jobName ++ ")",
    "(" ++ DefaultTriggerFor name ++ ")"]
  let triggers := if customTrigger ≠ "" then
      triggers ++ ["((?m)^" ++ customTrigger ++ "(\\s+|$))"]
    else triggers
  goJoin "|" triggers

/-- Materialized base name `<job>_<repo>[_<branch-if-not-master>]`
(generate.go:349-352). -/
def materializedName (job : Job) (jobsConfig : JobsConfig) (branch : String) : String :=
  job.name ++ "_" ++ jobsConfig.repo ++ (if branch ≠ "master" then "_" ++ branch else "")

/-- The testgrid dashboard name stem (generate.go:342-346; the source
variable is named testgridJobPrefix). -/
def testgridPfx (jobsConfig : JobsConfig) (branch : String) : String :=
  (jobsConfig.org ++ (if branch ≠ "master" then "_" ++ branch else "")) ++ "_" ++ jobsConfig.repo

/-- The presubmit materialization block of `ConvertJobConfig`
(generate.go:348-389) for one expanded job. -/
def mkPresubmit (cli : Client) (jobsConfig : JobsConfig) (job : Job) (branch : String) :
    Except String (Option Presubmit) :=
  if job.types.isEmpty || job.types.contains TypePresubmit then
    let name := materializedName job jobsConfig branch
    match createJobBase cli cli.baseConfig jobsConfig job name branch
        jobsConfig.common.resourcePresets with
    | .error e => .error e
    | .ok base =>
      let p : Presubmit :=
        { base := base, alwaysRun := true,
          brancherBranches := ["^" ++ branch ++ "$"] }
      let p := if job.gerritPresubmitLabel ≠ "" then
          { p with base := { p.base with
              labels := setG p.base.labels GerritReportLabel job.gerritPresubmitLabel } }
        else p
      let p := match lookupG cli.baseConfig.pathAliases jobsConfig.org with
        | some pa => { p with base := { p.base with pathAlias := pa ++ "/" ++ jobsConfig.repo } }
        | none => p
      let p := if job.common.regex ≠ "" then
          { p with runIfChanged := job.common.regex, alwaysRun := false }
        else p
      let p := { p with trigger := presubmitTriggerGen name job.common.trigger }
      let p := if cli.baseConfig.testgridConfig.enabled then
          let injected : GoMap String := [(TestGridDashboard, testgridPfx jobsConfig branch)]
          { p with base :=
            { p.base with annotations := mergeMaps [p.base.annotations, injected] } }
        else p
      let p := applyModifiersPresubmit p job.common.modifiers
      match applyRequirements p.base job.common.requirements job.common.excludedRequirements
          jobsConfig.common.requirementPresets with
      | .error e => .error e
      | .ok base2 => .ok (some { p with base := base2 })
  else .ok none

/-- The postsubmit materialization block of `ConvertJobConfig`
(generate.go:391-428) for one expanded job. -/
def mkPostsubmit (cli : Client) (jobsConfig : JobsConfig) (job : Job) (branch : String) :
    Except String (Option Postsubmit) :=
  if job.types.isEmpty || job.types.contains TypePostsubmit then
    let name := materializedName job jobsConfig branch ++ "_postsubmit"
    match createJobBase cli cli.baseConfig jobsConfig job name branch
        jobsConfig.common.resourcePresets with
    | .error e => .error e
    | .ok base =>
      let p : Postsubmit :=
        { base := base,
          brancherBranches := ["^" ++ branch ++ "$"] }
      let p := if job.gerritPostsubmitLabel ≠ "" then
          { p with base := { p.base with
              labels := setG p.base.labels GerritReportLabel job.gerritPostsubmitLabel } }
        else p
      let p := match lookupG cli.baseConfig.pathAliases jobsConfig.org with
        | some pa => { p with base := { p.base with pathAlias := pa ++ "/" ++ jobsConfig.repo } }
        | none => p
      let p := if job.common.regex ≠ "" then
          { p with runIfChanged := job.common.regex }
        else p
      let p := if cli.baseConfig.testgridConfig.enabled then
          let injected : GoMap String :=
            [(TestGridDashboard, testgridPfx jobsConfig branch ++ "_postsubmit"),
             (TestGridAlertEmail, cli.baseConfig.testgridConfig.alertEmail),
             (TestGridNumFailures, cli.baseConfig.testgridConfig.numFailuresToAlert)]
          { p with base :=
            { p.base with annotations := mergeMaps [p.base.annotations, injected] } }
        else p
      let p := applyModifiersPostsubmit p job.common.modifiers
      match applyRequirements p.base job.common.requirements job.common.excludedRequirements
          jobsConfig.common.requirementPresets with
      | .error e => .error e
      | .ok base2 => .ok (some { p with base := base2 })
  else .ok none

/-- The periodic materialization block of `ConvertJobConfig`
(generate.go:430-460) for one expanded job: the owning repository is
prepended to the job's extra-repository list before the base job (and with
it the extra refs) is created. -/
def mkPeriodic (cli : Client) (jobsConfig : JobsConfig) (job : Job) (branch : String) :
    Except String (Option Periodic) :=
  if job.types.contains TypePeriodic then
    let name := materializedName job jobsConfig branch ++ "_periodic"
    let job2 := { job with repos := (jobsConfig.org ++ "/" ++ jobsConfig.repo) :: job.repos }
    match createJobBase cli cli.baseConfig jobsConfig job2 name branch
        jobsConfig.common.resourcePresets with
    | .error e => .error e
    | .ok base =>
      let p : Periodic :=
        { base := base, interval := job.common.interval,
          cron := job.common.cron, tags := job.tags }
      let p := if cli.baseConfig.testgridConfig.enabled then
          let injected : GoMap String :=
            [(TestGridDashboard, testgridPfx jobsConfig branch ++ "_periodic"),
             (TestGridAlertEmail, cli.baseConfig.testgridConfig.alertEmail),
             (TestGridNumFailures, cli.baseConfig.testgridConfig.numFailuresToAlert)]
          { p with base :=
            { p.base with annotations := mergeMaps [p.base.annotations, injected] } }
        else p
      match applyRequirements p.base job.common.requirements job.common.excludedRequirements
          jobsConfig.common.requirementPresets with
      | .error e => .error e
      | .ok base2 => .ok (some { p with base := base2 })
  else .ok none

/-- The materializations of one expanded job. -/
structure ConvertedJob where
  presubmit : Option Presubmit := none
  postsubmit : Option Postsubmit := none
  periodic : Option Periodic := none
deriving DecidableEq, Repr

/-- Per-expanded-job body of `ConvertJobConfig` (generate.go:337-461): the
presubmit, postsubmit and periodic blocks run in this order, each
materializing when the job's types select it; the first error aborts the
conversion. -/
def convertJob (cli : Client) (jobsConfig : JobsConfig) (job : Job) (branch : String) :
    Except String ConvertedJob :=
  match mkPresubmit cli jobsConfig job branch with
  | .error e => .error e
  | .ok pre =>
    match mkPostsubmit cli jobsConfig job branch with
    | .error e => .error e
    | .ok post =>
      match mkPeriodic cli jobsConfig job branch with
      | .error e => .error e
      | .ok peri => .ok { presubmit := pre, postsubmit := post, periodic := peri }

/-- Decidable equality of `Except` results. -/
instance {ε α : Type} [DecidableEq ε] [DecidableEq α] : DecidableEq (Except ε α) := fun a b =>
  match a, b with
  | .ok x, .ok y =>
    if h : x = y then .isTrue (by rw [h]) else .isFalse (fun hh => h (Except.ok.inj hh))
  | .error x, .error y =>
    if h : x = y then .isTrue (by rw [h]) else .isFalse (fun hh => h (Except.error.inj hh))
  | .ok _, .error _ => .isFalse (fun hh => Except.noConfusion hh)
  | .error _, .ok _ => .isFalse (fun hh => Except.noConfusion hh)

/-- The value contributed by the last element of the list that differs
from `zero`, or `zero` when no element does ("the last input that sets the
field"). -/
def lastSet {α : Type} [DecidableEq α] (zero : α) (l : List α) : α :=
  (l.reverse.find? (fun x => decide (x ≠ zero))).getD zero

/-- The binding of `k` contributed by the last map in the list that
contains it ("the last input that contains the key"). -/
def lastMapVal {α : Type} (ms : List (GoMap α)) (k : String) : Option α :=
  ms.reverse.findSome? (fun m => lookupG m k)

/-- Concrete configuration fixture for witnesses: an earlier merge input. -/
def witCfgA : CommonConfig :=
  { image := "a", cluster := "x", annotations := [("k", "u"), ("o", "1")] }

/-- Concrete configuration fixture for witnesses: a later merge input. -/
def witCfgB : CommonConfig :=
  { image := "b", annotations := [("k", "w")] }

/-- Fixture: a job violating several validation rules at once (missing
image, invalid modifier, cron and interval both set, unknown type,
malformed extra-repository reference). -/
def witBadJob : Job :=
  { name := "j", types := ["periodic", "bogus"], repos := ["noslash"],
    common := { modifiers := ["bad"], cron := "x", interval := "1h" } }

/-- Fixture: a catalog with six independent violations (empty org plus the
five violations of `witBadJob`). -/
def witBadCatalog : JobsConfig := { org := "", repo := "r", jobs := [witBadJob] }

/-- Fixture: a client with dashboard integration enabled. -/
def witClientTG : Client := { baseConfig := { testgridConfig := { enabled := true } } }

/-- Fixture: the catalog `org/sample` (spec §8 examples). -/
def witCatalog : JobsConfig := { org := "org", repo := "sample" }

/-- Fixture: a presubmit job that already binds the dashboard annotation
key. -/
def witAnnJob : Job :=
  { name := "unit", types := ["presubmit"],
    common := { image := "img:1", annotations := [(TestGridDashboard, "user-dash")] } }

/-- Fixture: a presubmit job with no custom trigger phrase. -/
def witPlainJob : Job :=
  { name := "unit", types := ["presubmit"], common := { image := "img:1" } }

/-- Fixture: a periodic job with one extra repository (spec §8 example). -/
def witPeriodicJob : Job :=
  { name := "unit", types := ["periodic"], repos := ["other/dep"],
    common := { image := "img:1" } }

theorem findSomeOr {α β : Type} (f : α → Option β) (l1 l2 : List α) :
    (l1 ++ l2).findSome? f = (l1.findSome? f).or (l2.findSome? f) := by
  induction l1 with
  | nil => simp
  | cons a l ih =>
    cases hfa : f a <;> simp [List.findSome?_cons, hfa, ih]

theorem foldl_overZ {α : Type} [DecidableEq α] (zero : α) (l : List α) :
    ∀ (a : α), List.foldl (overZ zero) a l =
      (l.reverse.find? (fun x => decide (x ≠ zero))).getD a := by
  induction l with
  | nil => intro a; rfl
  | cons x l ih =>
    intro a
    rw [List.foldl_cons, ih, List.reverse_cons, List.find?_append]
    cases hf : List.find? (fun x => decide (x ≠ zero)) l.reverse with
    | some y => simp
    | none =>
      by_cases hx : x = zero
      · subst hx; simp [overZ, List.find?]
      · simp [overZ, hx, List.find?]

theorem foldl_proj {β γ δ : Type} (f : β → δ → β) (g : γ → δ → γ) (p : β → γ)
    (h : ∀ b d, p (f b d) = g (p b) d) :
    ∀ (l : List δ) (b : β), p (List.foldl f b l) = List.foldl g (p b) l := by
  intro l
  induction l with
  | nil => intro b; rfl
  | cons d l ih => intro b; rw [List.foldl_cons, List.foldl_cons, ih, h]

theorem lookupG_setG {α : Type} (m : GoMap α) (k k' : String) (v : α) :
    lookupG (setG m k' v) k = if k = k' then some v else lookupG m k := by
  induction m with
  | nil =>
    show (if k' = k then some v else none) = if k = k' then some v else none
    by_cases h : k = k'
    · subst h; simp
    · rw [if_neg (fun hh : k' = k => h hh.symm), if_neg h]
  | cons p rest ih =>
    by_cases hp : p.1 = k'
    · simp only [setG, if_pos hp]
      by_cases h : k = k'
      · subst h
        show (if k = k then some v else lookupG rest k) = if k = k then some v else _
        simp
      · show (if k' = k then some v else lookupG rest k) =
          if k = k' then some v else (if p.1 = k then some p.2 else lookupG rest k)
        rw [if_neg (fun hh : k' = k => h hh.symm), if_neg h,
          if_neg (fun hh : p.1 = k => h (hh.symm.trans hp))]
    · simp only [setG, if_neg hp]
      show (if p.1 = k then some p.2 else lookupG (setG rest k' v) k) =
        if k = k' then some v else (if p.1 = k then some p.2 else lookupG rest k)
      by_cases h : k = k'
      · subst h
        rw [if_pos rfl, if_neg hp, ih]
        simp
      · rw [if_neg h]
        by_cases hpk : p.1 = k
        · rw [if_pos hpk, if_pos hpk]
        · rw [if_neg hpk, if_neg hpk, ih, if_neg h]

theorem lookupG_none_of_not_mem {α : Type} (m : GoMap α) (k : String)
    (h : ¬ k ∈ m.map Prod.fst) : lookupG m k = none := by
  induction m with
  | nil => rfl
  | cons p rest ih =>
    simp only [List.map_cons, List.mem_cons, not_or] at h
    show (if p.1 = k then some p.2 else lookupG rest k) = none
    rw [if_neg (fun hh : p.1 = k => h.1 hh.symm)]
    exact ih h.2

theorem lookupG_mergoMap {α : Type} (dst src : GoMap α) (hsrc : keysNodup src) (k : String) :
    lookupG (mergoMap dst src) k = (lookupG src k).or (lookupG dst k) := by
  induction src generalizing dst with
  | nil => simp [mergoMap, lookupG]
  | cons q rest ih =>
    have hn : keysNodup rest := by
      simpa [keysNodup] using (List.nodup_cons.mp hsrc).2
    have hq : ¬ q.1 ∈ rest.map Prod.fst := by
      simpa [keysNodup] using (List.nodup_cons.mp hsrc).1
    show lookupG (List.foldl (fun acc p => setG acc p.1 p.2) (setG dst q.1 q.2) rest) k = _
    rw [show List.foldl (fun acc p => setG acc p.1 p.2) (setG dst q.1 q.2) rest =
        mergoMap (setG dst q.1 q.2) rest from rfl,
      ih (setG dst q.1 q.2) hn, lookupG_setG]
    by_cases hk : k = q.1
    · subst hk
      rw [if_pos rfl, lookupG_none_of_not_mem rest _ hq]
      show (none : Option α).or (some q.2) =
        (if q.1 = q.1 then some q.2 else lookupG rest q.1).or (lookupG dst q.1)
      rw [if_pos rfl]
      rfl
    · rw [if_neg hk]
      show (lookupG rest k).or (lookupG dst k) =
        (if q.1 = k then some q.2 else lookupG rest k).or (lookupG dst k)
      rw [if_neg (fun hh : q.1 = k => hk hh.symm)]

theorem lookupG_foldl_mergoMap {α : Type} (ms : List (GoMap α))
    (h : ∀ m ∈ ms, keysNodup m) (k : String) :
    ∀ acc, lookupG (List.foldl mergoMap acc ms) k = (lastMapVal ms k).or (lookupG acc k) := by
  induction ms with
  | nil => intro acc; simp [lastMapVal, List.findSome?]
  | cons m ms ih =>
    intro acc
    have hsingle : List.findSome? (fun m => lookupG m k) [m] = lookupG m k := by
      cases hm : lookupG m k <;> simp [List.findSome?_cons, hm]
    rw [List.foldl_cons, ih (fun x hx => h x (List.mem_cons_of_mem m hx)),
      lookupG_mergoMap acc m (h m (List.mem_cons_self m ms)) k]
    unfold lastMapVal
    rw [List.reverse_cons, findSomeOr, hsingle, Option.or_assoc]

theorem mergeCommonConfig_scalar {α : Type} [DecidableEq α] (zero : α)
    (p : CommonConfig → α) (hzero : p {} = zero)
    (hstep : ∀ b c, p (mergeStep b c) = overZ zero (p b) (p c))
    (configs : List CommonConfig) :
    p (mergeCommonConfig configs) = lastSet zero (configs.map p) := by
  unfold mergeCommonConfig lastSet
  rw [foldl_proj mergeStep (fun s c => overZ zero s (p c)) p hstep configs {}, hzero,
    ← List.foldl_map p (overZ zero) configs zero]
  exact foldl_overZ zero (configs.map p) zero

theorem mergeCommonConfig_mapField {α : Type} (p : CommonConfig → GoMap α)
    (hzero : p {} = []) (hstep : ∀ b c, p (mergeStep b c) = mergoMap (p b) (p c))
    (configs : List CommonConfig) (h : ∀ c ∈ configs, keysNodup (p c)) (k : String) :
    lookupG (p (mergeCommonConfig configs)) k = lastMapVal (configs.map p) k := by
  unfold mergeCommonConfig
  rw [foldl_proj mergeStep (fun s c => mergoMap s (p c)) p hstep configs {}, hzero,
    ← List.foldl_map p mergoMap configs []]
  rw [lookupG_foldl_mergoMap _
    (fun m hm => by obtain ⟨c, hc, rfl⟩ := List.mem_map.mp hm; exact h c hc) k []]
  simp [lookupG]

theorem foldl_selectorStep (configs : List CommonConfig) :
    ∀ (acc : GoMap String),
      List.foldl (fun s c => if c.nodeSelector.isEmpty then s else deepCopyMap c.nodeSelector)
        acc configs =
      ((configs.reverse.find? (fun c => !c.nodeSelector.isEmpty)).map
        (fun c => deepCopyMap c.nodeSelector)).getD acc := by
  induction configs with
  | nil => intro acc; rfl
  | cons x l ih =>
    intro acc
    rw [List.foldl_cons, ih, List.reverse_cons, List.find?_append]
    cases hf : List.find? (fun c => !c.nodeSelector.isEmpty) l.reverse with
    | some y => simp
    | none =>
      by_cases hx : x.nodeSelector.isEmpty
      · simp [List.find?, hx]
      · simp [List.find?, hx]

theorem mergeStep_nodeSelector (b c : CommonConfig) :
    (mergeStep b c).nodeSelector =
      if c.nodeSelector.isEmpty then b.nodeSelector else deepCopyMap c.nodeSelector := by
  unfold mergeStep
  split
  · rename_i hc
    show mergoMap b.nodeSelector c.nodeSelector = b.nodeSelector
    rw [List.isEmpty_iff.mp hc]
    rfl
  · rfl

/-- C1: `mergeCommonConfig` gives later entries precedence.  Every scalar
or pointer field of the result holds the value contributed by the last
input in the sequence that sets that field (its Go zero value meaning
"unset"), and every map-typed field other than NodeSelector is the
key-wise union of all inputs, a key present in several inputs taking its
value from the last input that contains it.  (Key-uniqueness of the input
maps, true of every Go map, is assumed for the map clauses.) -/
theorem mergeCommonConfig_later_wins (configs : List CommonConfig)
    (hann : ∀ c ∈ configs, keysNodup c.annotations)
    (hlab : ∀ c ∈ configs, keysNodup c.labels)
    (hres : ∀ c ∈ configs, keysNodup c.resourcePresets)
    (hreq : ∀ c ∈ configs, keysNodup c.requirementPresets) :
    (mergeCommonConfig configs).image = lastSet "" (configs.map (fun c => c.image)) ∧
    (mergeCommonConfig configs).gcsLogBucket =
      lastSet "" (configs.map (fun c => c.gcsLogBucket)) ∧
    (mergeCommonConfig configs).terminationGracePeriodSeconds =
      lastSet 0 (configs.map (fun c => c.terminationGracePeriodSeconds)) ∧
    (mergeCommonConfig configs).interval = lastSet "" (configs.map (fun c => c.interval)) ∧
    (mergeCommonConfig configs).cron = lastSet "" (configs.map (fun c => c.cron)) ∧
    (mergeCommonConfig configs).cluster = lastSet "" (configs.map (fun c => c.cluster)) ∧
    (mergeCommonConfig configs).imagePullPolicy =
      lastSet "" (configs.map (fun c => c.imagePullPolicy)) ∧
    (mergeCommonConfig configs).serviceAccountName =
      lastSet "" (configs.map (fun c => c.serviceAccountName)) ∧
    (mergeCommonConfig configs).regex = lastSet "" (configs.map (fun c => c.regex)) ∧
    (mergeCommonConfig configs).trigger = lastSet "" (configs.map (fun c => c.trigger)) ∧
    (mergeCommonConfig configs).timeout = lastSet none (configs.map (fun c => c.timeout)) ∧
    (mergeCommonConfig configs).maxConcurrency =
      lastSet 0 (configs.map (fun c => c.maxConcurrency)) ∧
    (mergeCommonConfig configs).resources = lastSet "" (configs.map (fun c => c.resources)) ∧
    (∀ k, lookupG (mergeCommonConfig configs).annotations k =
      lastMapVal (configs.map (fun c => c.annotations)) k) ∧
    (∀ k, lookupG (mergeCommonConfig configs).labels k =
      lastMapVal (configs.map (fun c => c.labels)) k) ∧
    (∀ k, lookupG (mergeCommonConfig configs).resourcePresets k =
      lastMapVal (configs.map (fun c => c.resourcePresets)) k) ∧
    (∀ k, lookupG (mergeCommonConfig configs).requirementPresets k =
      lastMapVal (configs.map (fun c => c.requirementPresets)) k) := by
  refine ⟨?_, ?_, ?_, ?_, ?_, ?_, ?_, ?_, ?_, ?_, ?_, ?_, ?_, ?_, ?_, ?_, ?_⟩
  · exact mergeCommonConfig_scalar "" (fun c => c.image) rfl
      (fun b c => by unfold mergeStep; split <;> rfl) configs
  · exact mergeCommonConfig_scalar "" (fun c => c.gcsLogBucket) rfl
      (fun b c => by unfold mergeStep; split <;> rfl) configs
  · exact mergeCommonConfig_scalar 0 (fun c => c.terminationGracePeriodSeconds) rfl
      (fun b c => by unfold mergeStep; split <;> rfl) configs
  · exact mergeCommonConfig_scalar "" (fun c => c.interval) rfl
      (fun b c => by unfold mergeStep; split <;> rfl) configs
  · exact mergeCommonConfig_scalar "" (fun c => c.cron) rfl
      (fun b c => by unfold mergeStep; split <;> rfl) configs
  · exact mergeCommonConfig_scalar "" (fun c => c.cluster) rfl
      (fun b c => by unfold mergeStep; split <;> rfl) configs
  · exact mergeCommonConfig_scalar "" (fun c => c.imagePullPolicy) rfl
      (fun b c => by unfold mergeStep; split <;> rfl) configs
  · exact mergeCommonConfig_scalar "" (fun c => c.serviceAccountName) rfl
      (fun b c => by unfold mergeStep; split <;> rfl) configs
  · exact mergeCommonConfig_scalar "" (fun c => c.regex) rfl
      (fun b c => by unfold mergeStep; split <;> rfl) configs
  · exact mergeCommonConfig_scalar "" (fun c => c.trigger) rfl
      (fun b c => by unfold mergeStep; split <;> rfl) configs
  · exact mergeCommonConfig_scalar none (fun c => c.timeout) rfl
      (fun b c => by unfold mergeStep; split <;> rfl) configs
  · exact mergeCommonConfig_scalar 0 (fun c => c.maxConcurrency) rfl
      (fun b c => by unfold mergeStep; split <;> rfl) configs
  · exact mergeCommonConfig_scalar "" (fun c => c.resources) rfl
      (fun b c => by unfold mergeStep; split <;> rfl) configs
  · exact fun k => mergeCommonConfig_mapField (fun c => c.annotations) rfl
      (fun b c => by unfold mergeStep; split <;> rfl) configs hann k
  · exact fun k => mergeCommonConfig_mapField (fun c => c.labels) rfl
      (fun b c => by unfold mergeStep; split <;> rfl) configs hlab k
  · exact fun k => mergeCommonConfig_mapField (fun c => c.resourcePresets) rfl
      (fun b c => by unfold mergeStep; split <;> rfl) configs hres k
  · exact fun k => mergeCommonConfig_mapField (fun c => c.requirementPresets) rfl
      (fun b c => by unfold mergeStep; split <;> rfl) configs hreq k

/-- Witness for C1 at two concrete inputs: the later input wins the image
and the shared annotation key, while values only the earlier input sets
survive. -/
theorem mergeCommonConfig_later_wins_witness :
    (mergeCommonConfig [witCfgA, witCfgB]).image = "b" ∧
    (mergeCommonConfig [witCfgA, witCfgB]).cluster = "x" ∧
    lookupG (mergeCommonConfig [witCfgA, witCfgB]).annotations "k" = some "w" ∧
    lookupG (mergeCommonConfig [witCfgA, witCfgB]).annotations "o" = some "1" := by
  obtain ⟨h1, h2, h3, h4, h5, h6, h7, h8, h9, h10, h11, h12, h13, h14, h15, h16, h17⟩ :=
    mergeCommonConfig_later_wins [witCfgA, witCfgB]
      (by decide) (by decide) (by decide) (by decide)
  exact ⟨h1.trans (by decide), h6.trans (by decide),
    (h14 "k").trans (by decide), (h14 "o").trans (by decide)⟩

/-- C4: the NodeSelector of a `mergeCommonConfig` result equals the deep
copy of the NodeSelector of the last input whose selector is non-empty,
and is empty when no input declares one; it is never a key-wise union of
the selectors of two different inputs. -/
theorem mergeCommonConfig_nodeSelector_last (configs : List CommonConfig) :
    (mergeCommonConfig configs).nodeSelector =
      ((configs.reverse.find? (fun c => !c.nodeSelector.isEmpty)).map
        (fun c => deepCopyMap c.nodeSelector)).getD [] := by
  unfold mergeCommonConfig
  rw [foldl_proj mergeStep
    (fun s c => if c.nodeSelector.isEmpty then s else deepCopyMap c.nodeSelector)
    (fun c => c.nodeSelector) mergeStep_nodeSelector configs {}]
  exact foldl_selectorStep configs []

theorem length_filterMap_eq_countP {α β : Type} (f : α → Option β) (l : List α) :
    (l.filterMap f).length = l.countP (fun x => (f x).isSome) := by
  induction l with
  | nil => rfl
  | cons a l ih =>
    cases hfa : f a <;> simp [List.filterMap_cons, hfa, List.countP_cons, ih]

theorem validate_isSome (input : String) (options : List String) (description : String) :
    (validate input options description).isSome =
      !(options.any (fun opt => input == opt)) := by
  unfold validate
  cases h : options.any (fun opt => input == opt) <;> simp [h]

theorem periodicScheduleErrors_length (fileName : String) (cronOk durOk : String → Bool)
    (job : Job) :
    (periodicScheduleErrors fileName cronOk durOk job).length =
      if periodicScheduleOk cronOk durOk job then 0 else 1 := by
  unfold periodicScheduleErrors periodicScheduleOk
  by_cases hc : job.common.cron = "" <;> by_cases hi : job.common.interval = ""
  · simp [hc, hi]
  · simp [hc, hi]
    cases hd : durOk job.common.interval <;> simp [hd]
  · simp [hc, hi]
    cases hd : cronOk job.common.cron <;> simp [hd]
  · simp [hc, hi]

theorem periodicScheduleErrors_nil_iff (fileName : String) (cronOk durOk : String → Bool)
    (job : Job) :
    periodicScheduleErrors fileName cronOk durOk job = [] ↔
      periodicScheduleOk cronOk durOk job = true := by
  have h := periodicScheduleErrors_length fileName cronOk durOk job
  constructor
  · intro hnil
    rw [hnil] at h
    by_cases hok : periodicScheduleOk cronOk durOk job
    · exact hok
    · rw [if_neg hok] at h; simp at h
  · intro hok
    rw [if_pos hok] at h
    exact List.length_eq_zero.mp h

theorem jobValidationErrors_length (fileName : String) (cronOk durOk : String → Bool)
    (presets : GoMap ResourceRequirements) (job : Job) :
    (jobValidationErrors fileName cronOk durOk presets job).length =
      jobViolationCount cronOk durOk presets job := by
  unfold jobValidationErrors jobViolationCount
  simp only [List.length_append]
  have hA : ∀ (x : String) (c : Prop) [Decidable c],
      (if c then [x] else []).length = if c then 1 else 0 := by
    intro x c hc; split <;> rfl
  have hD : (if job.types.contains TypePeriodic then
        periodicScheduleErrors fileName cronOk durOk job else []).length =
      if job.types.contains TypePeriodic then
        (if periodicScheduleOk cronOk durOk job then 0 else 1) else 0 := by
    split
    · exact periodicScheduleErrors_length fileName cronOk durOk job
    · rfl
  rw [hA, hA, hD]
  rw [length_filterMap_eq_countP, length_filterMap_eq_countP, length_filterMap_eq_countP]
  rw [List.countP_congr (l := job.common.modifiers)
      (q := fun mod => !([ModifierHidden, ModifierPresubmitOptional,
        ModifierPresubmitSkipped].any (fun opt => mod == opt)))
      (fun x _ => by rw [validate_isSome x [ModifierHidden, ModifierPresubmitOptional,
        ModifierPresubmitSkipped] "status"]),
    List.countP_congr (l := job.types)
      (q := fun t => !([TypePostsubmit, TypePresubmit, TypePeriodic].any (fun opt => t == opt)))
      (fun x _ => by rw [validate_isSome x [TypePostsubmit, TypePresubmit, TypePeriodic] "type"])]
  rw [List.countP_congr (l := job.repos)
    (q := fun repo => decide ((goSplit repo '/').length ≠ 2))
    (fun x _ => by split <;> simp_all)]

theorem validateJobConfigErrors_length (fileName : String) (cronOk durOk : String → Bool)
    (jobsConfig : JobsConfig) :
    (validateJobConfigErrors fileName cronOk durOk jobsConfig).length =
      catalogViolationCount cronOk durOk jobsConfig := by
  unfold validateJobConfigErrors catalogViolationCount
  rw [List.length_append, List.length_append, List.length_flatten, List.map_map]
  have hA : ∀ (x : String) (c : Prop) [Decidable c],
      (if c then [x] else []).length = if c then 1 else 0 := by
    intro x c hc; split <;> rfl
  rw [hA, hA]
  have hmap : jobsConfig.jobs.map (List.length ∘
        jobValidationErrors fileName cronOk durOk jobsConfig.common.resourcePresets) =
      jobsConfig.jobs.map (jobViolationCount cronOk durOk jobsConfig.common.resourcePresets) :=
    List.map_congr_left (fun j _ =>
      jobValidationErrors_length fileName cronOk durOk jobsConfig.common.resourcePresets j)
  rw [hmap]

/-- C2 (amended): validation is complete and aggregating — the collected
multierror contains exactly one entry per violated rule instance (all N
independent violations, not just the first), and a catalog with no
violations passes; but on any violation `ValidateJobConfig` terminates the
run carrying the full aggregate instead of returning it. -/
theorem validateJobConfig_aggregates (fileName : String) (cronOk durOk : String → Bool)
    (jobsConfig : JobsConfig) :
    (validateJobConfigErrors fileName cronOk durOk jobsConfig).length =
      catalogViolationCount cronOk durOk jobsConfig ∧
    (catalogViolationCount cronOk durOk jobsConfig = 0 →
      ValidateJobConfig fileName cronOk durOk jobsConfig = .ok) ∧
    (catalogViolationCount cronOk durOk jobsConfig ≠ 0 →
      ValidateJobConfig fileName cronOk durOk jobsConfig =
        .exited (validateJobConfigErrors fileName cronOk durOk jobsConfig)) := by
  have hlen := validateJobConfigErrors_length fileName cronOk durOk jobsConfig
  refine ⟨hlen, ?_, ?_⟩
  · intro h0
    have hnil : validateJobConfigErrors fileName cronOk durOk jobsConfig = [] :=
      List.length_eq_zero.mp (hlen.trans h0)
    unfold ValidateJobConfig
    rw [hnil]
    rfl
  · intro hne
    have hnnil : validateJobConfigErrors fileName cronOk durOk jobsConfig ≠ [] := by
      intro hnil
      apply hne
      rw [← hlen, hnil]
      rfl
    unfold ValidateJobConfig
    rw [if_neg (by simpa [List.isEmpty_iff] using hnnil)]

/-- Counterexample to C2 as stated: on a catalog with a violation,
`ValidateJobConfig` does not return the violation list — the run is
terminated via `exit(err, "validation failed")`, modelled as the `exited`
outcome, which differs from every normal return. -/
theorem validateJobConfig_exits_counterexample :
    ValidateJobConfig "f" (fun _ => true) (fun _ => true) { org := "", repo := "r" } =
      .exited ["f: org must be set"] ∧
    ValidateOutcome.exited ["f: org must be set"] ≠ ValidateOutcome.ok := by
  exact ⟨by decide, by decide⟩

/-- Witness for C2 (amended) at a concrete catalog carrying six
independent violations: all six are collected, and the run aborts with
exactly that aggregate. -/
theorem validateJobConfig_aggregates_witness :
    (validateJobConfigErrors "f" (fun _ => true) (fun _ => true) witBadCatalog).length = 6 ∧
    ValidateJobConfig "f" (fun _ => true) (fun _ => true) witBadCatalog =
      .exited (validateJobConfigErrors "f" (fun _ => true) (fun _ => true) witBadCatalog) := by
  have h := validateJobConfig_aggregates "f" (fun _ => true) (fun _ => true) witBadCatalog
  exact ⟨h.1.trans (by decide), h.2.2 (by decide)⟩

/-- C8: a job typed periodic is rejected when both cron and interval are
set, when neither is set, when the declared cron does not parse, and when
the declared interval does not parse; the schedule rule accepts exactly
when one of the two is set and it parses.  The cron and duration parsers
are external libraries, abstracted as the total predicates
`cronOk`/`durOk`; a non-empty schedule-error list makes the job's whole
violation list non-empty. -/
theorem periodic_schedule_validation (fileName : String) (cronOk durOk : String → Bool)
    (presets : GoMap ResourceRequirements) (job : Job)
    (hper : job.types.contains TypePeriodic = true) :
    (job.common.cron ≠ "" → job.common.interval ≠ "" →
      periodicScheduleErrors fileName cronOk durOk job ≠ []) ∧
    (job.common.cron = "" → job.common.interval = "" →
      periodicScheduleErrors fileName cronOk durOk job ≠ []) ∧
    (job.common.cron ≠ "" → cronOk job.common.cron = false →
      periodicScheduleErrors fileName cronOk durOk job ≠ []) ∧
    (job.common.interval ≠ "" → durOk job.common.interval = false →
      periodicScheduleErrors fileName cronOk durOk job ≠ []) ∧
    (periodicScheduleErrors fileName cronOk durOk job = [] ↔
      periodicScheduleOk cronOk durOk job = true) ∧
    (periodicScheduleErrors fileName cronOk durOk job ≠ [] →
      jobValidationErrors fileName cronOk durOk presets job ≠ []) := by
  refine ⟨?_, ?_, ?_, ?_, periodicScheduleErrors_nil_iff fileName cronOk durOk job, ?_⟩
  · intro hc hi hnil
    have hok := (periodicScheduleErrors_nil_iff fileName cronOk durOk job).mp hnil
    unfold periodicScheduleOk at hok
    simp [hc, hi] at hok
  · intro hc hi hnil
    have hok := (periodicScheduleErrors_nil_iff fileName cronOk durOk job).mp hnil
    unfold periodicScheduleOk at hok
    simp [hc, hi] at hok
  · intro hc hcron hnil
    have hok := (periodicScheduleErrors_nil_iff fileName cronOk durOk job).mp hnil
    unfold periodicScheduleOk at hok
    simp [hc, hcron] at hok
  · intro hi hdur hnil
    have hok := (periodicScheduleErrors_nil_iff fileName cronOk durOk job).mp hnil
    unfold periodicScheduleOk at hok
    simp [hi, hdur] at hok
  · intro hpse hnil
    unfold jobValidationErrors at hnil
    rw [if_pos hper] at hnil
    rcases List.append_eq_nil.mp hnil with ⟨hnil2, -⟩
    rcases List.append_eq_nil.mp hnil2 with ⟨hnil3, -⟩
    rcases List.append_eq_nil.mp hnil3 with ⟨-, hpse2⟩
    exact hpse hpse2

/-- Witness for C8 at a concrete job declaring both a cron expression and
an interval: the schedule rule rejects it and the job's violation list is
non-empty. -/
theorem periodic_schedule_validation_witness :
    periodicScheduleErrors "f" (fun _ => true) (fun _ => true) witBadJob ≠ [] ∧
    jobValidationErrors "f" (fun _ => true) (fun _ => true) [] witBadJob ≠ [] := by
  have h := periodic_schedule_validation "f" (fun _ => true) (fun _ => true) [] witBadJob
    (by decide)
  have h1 := h.1 (by decide) (by decide)
  exact ⟨h1, h.2.2.2.2.2 h1⟩

theorem resolveCombinations_length (matrix : GoMap (List String)) :
    ∀ (combs : List String) (dest : String),
      (resolveCombinations combs dest matrix).length =
        (combs.map (fun c => ((lookupG matrix c).getD []).length)).prod := by
  intro combs
  induction combs with
  | nil => intro dest; rfl
  | cons c rest ih =>
    intro dest
    show ((((lookupG matrix c).getD []).map
      (fun v => resolveCombinations rest (replace dest c v) matrix)).flatten).length = _
    rw [List.length_flatten, List.map_map]
    have hm : (((lookupG matrix c).getD []).map
        (List.length ∘ fun v => resolveCombinations rest (replace dest c v) matrix)) =
        (((lookupG matrix c).getD []).map (fun _ =>
          (rest.map (fun c => ((lookupG matrix c).getD []).length)).prod)) :=
      List.map_congr_left (fun v _ => ih (replace dest c v))
    rw [hm, List.map_const', List.sum_replicate, List.map_cons, List.prod_cons]
    simp [smul_eq_mul]

theorem collectCombs_ok (matrix : GoMap (List String)) :
    ∀ (subsExps : List String),
      (∀ exp ∈ subsExps, "matrix.".data.isPrefixOf exp.data = true →
        (lookupG matrix (String.mk (exp.data.drop 7))).isSome = true) →
      collectCombs subsExps matrix = .ok (subsExps.filterMap (fun exp =>
        if "matrix.".data.isPrefixOf exp.data then some (String.mk (exp.data.drop 7))
        else none)) := by
  intro subsExps
  induction subsExps with
  | nil => intro h; rfl
  | cons exp rest ih =>
    intro h
    unfold collectCombs
    by_cases hm : "matrix.".data.isPrefixOf exp.data = true
    · rw [if_pos hm, if_pos (h exp (List.mem_cons_self exp rest) hm),
        ih (fun e he hp => h e (List.mem_cons_of_mem exp he) hp),
        List.filterMap_cons_some (by rw [if_pos hm])]
      rfl
    · rw [if_neg hm, ih (fun e he hp => h e (List.mem_cons_of_mem exp he) hp),
        List.filterMap_cons_none (by rw [if_neg hm])]

/-- C3: matrix expansion cardinality.  When every matrix dimension
referenced by a `$(matrix.<dim>)` placeholder in the serialized template
is declared in the matrix, `applyMatrix` succeeds and returns exactly
`n1*n2*...*nk` documents, where the `ni` are the sizes of the value lists
of the distinct referenced dimensions; a template referencing zero matrix
placeholders yields exactly the original document as a singleton. -/
theorem applyMatrix_cardinality (yamlStr : String) (matrix : GoMap (List String))
    (h : ∀ dim ∈ matrixDims yamlStr, (lookupG matrix dim).isSome = true) :
    ∃ res, applyMatrix yamlStr matrix = .ok res ∧
      res.length = ((matrixDims yamlStr).map
        (fun d => ((lookupG matrix d).getD []).length)).prod ∧
      (matrixDims yamlStr = [] → res = [yamlStr]) := by
  unfold applyMatrix
  by_cases hempty : (getVarSubstitutionExpressions yamlStr).isEmpty = true
  · rw [if_pos hempty]
    refine ⟨[yamlStr], rfl, ?_, fun _ => rfl⟩
    have hdims : matrixDims yamlStr = [] := by
      unfold matrixDims
      rw [List.isEmpty_iff.mp hempty]
      rfl
    rw [hdims]
    rfl
  · rw [if_neg hempty]
    have hcc := collectCombs_ok matrix (getVarSubstitutionExpressions yamlStr)
      (fun exp hexp hpre => h _ (List.mem_filterMap.mpr ⟨exp, hexp, by rw [if_pos hpre]⟩))
    rw [hcc]
    exact ⟨resolveCombinations (matrixDims yamlStr) yamlStr matrix, rfl,
      resolveCombinations_length matrix (matrixDims yamlStr) yamlStr,
      fun hd => by rw [hd]; rfl⟩

/-- Witness for C3 at a concrete template referencing two dimensions of
sizes 2 and 3: expansion succeeds with exactly 6 documents. -/
theorem applyMatrix_cardinality_witness :
    matrixDims "a: $(matrix.arch)\nb: $(matrix.ver)" = ["arch", "ver"] ∧
    ∃ res, applyMatrix "a: $(matrix.arch)\nb: $(matrix.ver)"
        [("arch", ["amd64", "arm64"]), ("ver", ["1", "2", "3"])] = .ok res ∧
      res.length = 6 := by
  obtain ⟨res, h1, h2, h3⟩ := applyMatrix_cardinality "a: $(matrix.arch)\nb: $(matrix.ver)"
    [("arch", ["amd64", "arm64"]), ("ver", ["1", "2", "3"])] (by decide)
  exact ⟨by decide, res, h1, h2.trans (by decide)⟩

theorem lookupG_append {α : Type} (l1 l2 : GoMap α) (k : String) :
    lookupG (l1 ++ l2) k = (lookupG l1 k).or (lookupG l2 k) := by
  induction l1 with
  | nil => simp [lookupG]
  | cons p rest ih =>
    by_cases hp : p.1 = k <;> simp [lookupG, hp, ih]

theorem lookupG_mergoMapFill (src : GoMap String) :
    ∀ (dst : GoMap String) (k v : String), v ≠ "" → lookupG dst k = some v →
      lookupG (mergoMapFill dst src) k = some v := by
  induction src with
  | nil => intro dst k v hv hd; exact hd
  | cons p rest ih =>
    intro dst k v hv hd
    show lookupG (List.foldl _ (match lookupG dst p.1 with
      | none => dst ++ [(p.1, p.2)]
      | some w => if w = "" then setG dst p.1 p.2 else dst) rest) k = some v
    apply ih
    · exact hv
    · cases hdp : lookupG dst p.1 with
      | none =>
        simp only
        rw [lookupG_append, hd]
        rfl
      | some w =>
        simp only
        by_cases hw : w = ""
        · rw [if_pos hw, lookupG_setG]
          by_cases hk : k = p.1
          · subst hk
            rw [hd] at hdp
            cases hdp
            exact absurd hw hv
          · rw [if_neg hk]
            exact hd
        · rw [if_neg hw]
          exact hd

/-- C5 (amended): annotation-injection precedence.  In generate.go the
dashboard annotations are injected with `mergeMaps(jobAnnotations,
injected)`, whose later map wins: an injected key overwrites a
user-supplied annotation of the same key, while keys not injected keep the
job's values.  In the part_000 evolution the injection is a plain
`mergo.Merge` into the job's annotation map, which preserves every
non-empty user-supplied binding, so there the user value wins. -/
theorem annotation_injection_precedence (user injected : GoMap String)
    (hu : keysNodup user) (hi : keysNodup injected) (k : String) :
    lookupG (mergeMaps [user, injected]) k = (lookupG injected k).or (lookupG user k) ∧
    (∀ v, v ≠ "" → lookupG user k = some v →
      lookupG (mergoMapFill user injected) k = some v) := by
  constructor
  · show lookupG (List.foldl mergoMap [] [user, injected]) k = _
    rw [lookupG_foldl_mergoMap [user, injected] (by
      intro m hm
      rcases List.mem_cons.mp hm with h | h
      · rw [h]; exact hu
      · rcases List.mem_cons.mp h with h2 | h2
        · rw [h2]; exact hi
        · cases h2) k []]
    show (List.findSome? (fun m => lookupG m k) [injected, user]).or none = _
    rw [Option.or_none]
    cases h1 : lookupG injected k <;>
      cases h2 : lookupG user k <;>
        simp [List.findSome?_cons, h1, h2]
  · intro v hv hd
    exact lookupG_mergoMapFill injected user k v hv hd

/-- Counterexample to C5 as stated: materializing a presubmit (dashboard
integration enabled) for a job that already binds `testgrid-dashboards`
to `user-dash` yields the injected value `org_sample`, overwriting the
user-supplied annotation. -/
theorem annotation_injection_counterexample :
    (convertJob witClientTG witCatalog witAnnJob "master").map
      (fun cv => cv.presubmit.map (fun p => lookupG p.base.annotations TestGridDashboard)) =
      .ok (some (some "org_sample")) ∧
    some (some "org_sample") ≠ some (some "user-dash") := by
  exact ⟨by decide, by decide⟩

/-- Witness for C5 (amended) at concrete maps: the injected binding wins
in the generate.go merge, the user binding survives the part_000 merge. -/
theorem annotation_injection_precedence_witness :
    lookupG (mergeMaps [[(TestGridDashboard, "user-dash")],
      [(TestGridDashboard, "org_sample")]]) TestGridDashboard = some "org_sample" ∧
    lookupG (mergoMapFill [(TestGridDashboard, "user-dash")]
      [(TestGridDashboard, "org_sample")]) TestGridDashboard = some "user-dash" := by
  have h := annotation_injection_precedence [(TestGridDashboard, "user-dash")]
    [(TestGridDashboard, "org_sample")] (by decide) (by decide) TestGridDashboard
  exact ⟨h.1.trans (by decide), h.2 "user-dash" (by decide) (by decide)⟩

theorem append_lit {s t u : String} (h : s ++ t = u) (x : String) :
    s ++ (t ++ x) = u ++ x := by rw [← String.append_assoc, h]

/-- C6 (amended): presubmit trigger construction.  In generate.go the
trigger is left at its zero value when the job declares no custom trigger
phrase, and with a custom phrase it is the alternation of the default
trigger for the materialized name and the custom phrase anchored to line
start; in the part_000 evolution the trigger is always the alternation of
the default trigger for the job's base name and the default trigger for
the materialized name, plus the custom phrase when declared. -/
theorem presubmit_trigger_construction (jobName name customTrigger : String) :
    presubmitTriggerGen name "" = "" ∧
    (customTrigger ≠ "" → presubmitTriggerGen name customTrigger =
      "(" ++ DefaultTriggerFor name ++ ")|((?m)^" ++ customTrigger ++ "(\\s+|$))") ∧
    presubmitTriggerJoined jobName name "" =
      "(" ++ DefaultTriggerFor jobName ++ ")|(" ++ DefaultTriggerFor name ++ ")" ∧
    (customTrigger ≠ "" → presubmitTriggerJoined jobName name customTrigger =
      "(" ++ DefaultTriggerFor jobName ++ ")|(" ++ DefaultTriggerFor name ++
        ")|((?m)^" ++ customTrigger ++ "(\\s+|$))") := by
  refine ⟨rfl, ?_, ?_, ?_⟩
  · intro hct
    unfold presubmitTriggerGen
    rw [if_neg hct]
  · show goJoin "|" ["(" ++ DefaultTriggerFor jobName ++ ")",
      "(" ++ DefaultTriggerFor name ++ ")"] = _
    show "(" ++ DefaultTriggerFor jobName ++ ")" ++ "|" ++
      ("(" ++ DefaultTriggerFor name ++ ")") = _
    simp [String.append_assoc, append_lit (show (")|" : String) ++ "(" = ")|(" from rfl)]
  · intro hct
    show goJoin "|" (if customTrigger ≠ "" then
        ["(" ++ DefaultTriggerFor jobName ++ ")", "(" ++ DefaultTriggerFor name ++ ")"] ++
          ["((?m)^" ++ customTrigger ++ "(\\s+|$))"]
      else ["(" ++ DefaultTriggerFor jobName ++ ")",
        "(" ++ DefaultTriggerFor name ++ ")"]) = _
    rw [if_pos hct]
    show "(" ++ DefaultTriggerFor jobName ++ ")" ++ "|" ++
      ("(" ++ DefaultTriggerFor name ++ ")" ++ "|" ++
        ("((?m)^" ++ customTrigger ++ "(\\s+|$))")) = _
    simp [String.append_assoc, append_lit (show (")|" : String) ++ "(" = ")|(" from rfl),
      append_lit (show (")|" : String) ++ "((?m)^" = ")|((?m)^" from rfl)]

/-- Counterexample to C6 as stated: materializing a presubmit with no
custom trigger phrase in generate.go leaves the trigger empty, which is
not the alternation of the two default trigger phrases. -/
theorem presubmit_trigger_counterexample :
    (convertJob witClientTG witCatalog witPlainJob "master").map
      (fun cv => cv.presubmit.map (fun p => p.trigger)) = .ok (some "") ∧
    ("" : String) ≠ presubmitTriggerJoined "unit" "unit_sample" "" := by
  exact ⟨by decide, by decide⟩

/-- Witness for C6 (amended) at concrete names and a concrete custom
phrase. -/
theorem presubmit_trigger_construction_witness :
    presubmitTriggerGen "job_repo" "/custom" =
      "(" ++ DefaultTriggerFor "job_repo" ++ ")|((?m)^" ++ "/custom" ++ "(\\s+|$))" ∧
    presubmitTriggerJoined "job" "job_repo" "" =
      "(" ++ DefaultTriggerFor "job" ++ ")|(" ++ DefaultTriggerFor "job_repo" ++ ")" := by
  have h := presubmit_trigger_construction "job" "job_repo" "/custom"
  exact ⟨h.2.1 (by decide), h.2.2.1⟩

/-- C9: any computed job name whose length (Go `len`, i.e. byte length) is
at most 63 is accepted by `createJobBase`; a longer name is a fatal error
naming the offending name, unless long job names are explicitly allowed,
in which case any length is accepted. -/
theorem createJobBase_name_length (cli : Client) (baseConfig : BaseConfig)
    (jobConfig : JobsConfig) (job : Job) (name branch : String)
    (resources : GoMap ResourceRequirements) :
    (name.utf8ByteSize ≤ maxJobNameLength →
      ∃ jb, createJobBase cli baseConfig jobConfig job name branch resources = .ok jb) ∧
    (cli.longJobNamesAllowed = true →
      ∃ jb, createJobBase cli baseConfig jobConfig job name branch resources = .ok jb) ∧
    (name.utf8ByteSize > maxJobNameLength → cli.longJobNamesAllowed = false →
      createJobBase cli baseConfig jobConfig job name branch resources =
        .error ("job name exceeds " ++ toString maxJobNameLength ++
          " character limit '" ++ name ++ "'")) := by
  unfold createJobBase
  refine ⟨?_, ?_, ?_⟩
  · intro hlen
    rw [if_neg (fun hc => Nat.not_lt.mpr hlen hc.1)]
    exact ⟨_, rfl⟩
  · intro hall
    rw [if_neg (fun hc => hc.2 hall)]
    exact ⟨_, rfl⟩
  · intro hgt hna
    rw [if_pos ⟨hgt, by rw [hna]; exact Bool.false_ne_true⟩]

/-- Witness for C9: a 7-byte name is accepted, a 64-byte name is rejected
with an error naming it, and the same 64-byte name is accepted once long
names are allowed. -/
theorem createJobBase_name_length_witness :
    (∃ jb, createJobBase {} {} {} {} "ok_name" "master" [] = .ok jb) ∧
    createJobBase {} {} {} {} (String.mk (List.replicate 64 'a')) "master" [] =
      .error ("job name exceeds 63 character limit '" ++
        String.mk (List.replicate 64 'a') ++ "'") ∧
    (∃ jb, createJobBase { longJobNamesAllowed := true } {} {} {}
      (String.mk (List.replicate 64 'a')) "master" [] = .ok jb) := by
  have h1 := createJobBase_name_length {} {} {} {} "ok_name" "master" []
  have h2 := createJobBase_name_length {} {} {} {}
    (String.mk (List.replicate 64 'a')) "master" []
  have h3 := createJobBase_name_length { longJobNamesAllowed := true } {} {} {}
    (String.mk (List.replicate 64 'a')) "master" []
  exact ⟨h1.1 (by decide), (h2.2.2 (by decide) (by decide)).trans (by decide),
    h3.2.1 (by decide)⟩

/-- C10: `createContainer` always succeeds with exactly one container; an
empty resource-preset name on the job falls back to the preset named
`default`, the container's resources being the table entry for the
looked-up key and left unset (`none`) when that key is absent from the
table. -/
theorem createContainer_resources (jobConfig : JobsConfig) (job : Job)
    (resources : GoMap ResourceRequirements) :
    (createContainer jobConfig job resources).length = 1 ∧
    (job.common.resources = "" →
      (createContainer jobConfig job resources).map (fun c => c.resources) =
        [lookupG resources DefaultResource]) ∧
    (job.common.resources ≠ "" →
      (createContainer jobConfig job resources).map (fun c => c.resources) =
        [lookupG resources job.common.resources]) := by
  unfold createContainer
  refine ⟨rfl, ?_, ?_⟩
  · intro hres
    simp [hres]
  · intro hres
    simp [hres]

/-- Witness for C10: with no declared preset name the `default` entry is
used when present, and the resources stay unset when the table lacks the
key. -/
theorem createContainer_resources_witness :
    (createContainer {} { common := { image := "img" } } []).map (fun c => c.resources) =
      [none] ∧
    (createContainer {} { common := { image := "img" } }
      [("default", { limits := [("cpu", "1")] })]).map (fun c => c.resources) =
      [some { limits := [("cpu", "1")] }] := by
  have h1 := createContainer_resources {} { common := { image := "img" } } []
  have h2 := createContainer_resources {} { common := { image := "img" } }
    [("default", { limits := [("cpu", "1")] })]
  exact ⟨(h1.2.1 rfl).trans (by decide), (h2.2.1 rfl).trans (by decide)⟩

theorem applyRequirements_extraRefs {b : JobBase} {reqs excl : List String}
    {presetMap : GoMap RequirementPreset} {b2 : JobBase}
    (h : applyRequirements b reqs excl presetMap = .ok b2) : b2.extraRefs = b.extraRefs := by
  simp only [applyRequirements] at h
  split at h
  · cases h
    rfl
  · exact Except.noConfusion h

theorem createJobBase_extraRefs {cli : Client} {baseConfig : BaseConfig}
    {jobConfig : JobsConfig} {job : Job} {name branch : String}
    {resources : GoMap ResourceRequirements} {jb : JobBase}
    (h : createJobBase cli baseConfig jobConfig job name branch resources = .ok jb) :
    jb.extraRefs = createExtraRefs job.repos branch baseConfig.pathAliases := by
  simp only [createJobBase] at h
  split at h
  · exact Except.noConfusion h
  · cases h
    rfl

theorem applyModifiersPresubmit_extraRefs (mods : List String) :
    ∀ p : Presubmit, (applyModifiersPresubmit p mods).base.extraRefs = p.base.extraRefs := by
  induction mods with
  | nil => intro p; rfl
  | cons m rest ih =>
    intro p
    show (applyModifiersPresubmit
      (if m = ModifierPresubmitOptional then { p with optional := true }
        else if m = ModifierHidden then
          { p with skipReport := true, base := { p.base with reporterConfig := some () } }
        else if m = ModifierPresubmitSkipped then { p with alwaysRun := false }
        else p) rest).base.extraRefs = _
    rw [ih]
    split
    · rfl
    · split
      · rfl
      · split <;> rfl

theorem applyModifiersPostsubmit_extraRefs (mods : List String) :
    ∀ p : Postsubmit, (applyModifiersPostsubmit p mods).base.extraRefs = p.base.extraRefs := by
  induction mods with
  | nil => intro p; rfl
  | cons m rest ih =>
    intro p
    show (applyModifiersPostsubmit
      (if m = ModifierHidden then
        { p with skipReport := true, base := { p.base with reporterConfig := some () } }
       else p) rest).base.extraRefs = _
    rw [ih]
    split <;> rfl

theorem mkPeriodic_refs {cli : Client} {jobsConfig : JobsConfig} {job : Job}
    {branch : String} {per : Periodic}
    (h : mkPeriodic cli jobsConfig job branch = .ok (some per)) :
    per.base.extraRefs =
      extraRef (jobsConfig.org ++ "/" ++ jobsConfig.repo) branch cli.baseConfig.pathAliases ::
        createExtraRefs job.repos branch cli.baseConfig.pathAliases := by
  simp only [mkPeriodic] at h
  split at h
  · split at h
    · exact Except.noConfusion h
    · rename_i base hbase
      split at h
      · exact Except.noConfusion h
      · rename_i base2 hreq
        cases h
        show base2.extraRefs = _
        rw [applyRequirements_extraRefs hreq]
        split
        all_goals rw [createJobBase_extraRefs hbase]
        all_goals rfl
  · exact Option.noConfusion (Except.ok.inj h)

theorem mkPresubmit_refs {cli : Client} {jobsConfig : JobsConfig} {job : Job}
    {branch : String} {pre : Presubmit}
    (h : mkPresubmit cli jobsConfig job branch = .ok (some pre)) :
    pre.base.extraRefs = createExtraRefs job.repos branch cli.baseConfig.pathAliases := by
  simp only [mkPresubmit] at h
  split at h
  · split at h
    · exact Except.noConfusion h
    · rename_i base hbase
      split at h
      · exact Except.noConfusion h
      · rename_i base2 hreq
        cases h
        show base2.extraRefs = _
        rw [applyRequirements_extraRefs hreq, applyModifiersPresubmit_extraRefs]
        split <;> split <;> split <;> split <;>
          rw [createJobBase_extraRefs hbase]
  · exact Option.noConfusion (Except.ok.inj h)

theorem mkPostsubmit_refs {cli : Client} {jobsConfig : JobsConfig} {job : Job}
    {branch : String} {post : Postsubmit}
    (h : mkPostsubmit cli jobsConfig job branch = .ok (some post)) :
    post.base.extraRefs = createExtraRefs job.repos branch cli.baseConfig.pathAliases := by
  simp only [mkPostsubmit] at h
  split at h
  · split at h
    · exact Except.noConfusion h
    · rename_i base hbase
      split at h
      · exact Except.noConfusion h
      · rename_i base2 hreq
        cases h
        show base2.extraRefs = _
        rw [applyRequirements_extraRefs hreq, applyModifiersPostsubmit_extraRefs]
        split <;> split <;> split <;> split <;>
          rw [createJobBase_extraRefs hbase]
  · exact Option.noConfusion (Except.ok.inj h)

theorem convertJob_parts {cli : Client} {jobsConfig : JobsConfig} {job : Job}
    {branch : String} {cv : ConvertedJob}
    (h : convertJob cli jobsConfig job branch = .ok cv) :
    mkPresubmit cli jobsConfig job branch = .ok cv.presubmit ∧
    mkPostsubmit cli jobsConfig job branch = .ok cv.postsubmit ∧
    mkPeriodic cli jobsConfig job branch = .ok cv.periodic := by
  unfold convertJob at h
  split at h
  · exact Except.noConfusion h
  · rename_i pre hpre
    split at h
    · exact Except.noConfusion h
    · rename_i post hpost
      split at h
      · exact Except.noConfusion h
      · rename_i peri hperi
        cases h
        exact ⟨hpre, hpost, hperi⟩

/-- C7: when a job is materialized as a periodic, its extra-refs list is
the checkout ref of the owning repository string `org/repo` at the target
branch, followed by the refs of the job's declared extra repositories in
declaration order; the presubmit and postsubmit materializations of the
same job receive only the declared extra repositories. -/
theorem periodic_extra_refs (cli : Client) (jobsConfig : JobsConfig) (job : Job)
    (branch : String) (cv : ConvertedJob)
    (hok : convertJob cli jobsConfig job branch = .ok cv) :
    (∀ per ∈ cv.periodic, per.base.extraRefs =
      extraRef (jobsConfig.org ++ "/" ++ jobsConfig.repo) branch cli.baseConfig.pathAliases ::
        createExtraRefs job.repos branch cli.baseConfig.pathAliases) ∧
    (∀ pre ∈ cv.presubmit, pre.base.extraRefs =
      createExtraRefs job.repos branch cli.baseConfig.pathAliases) ∧
    (∀ post ∈ cv.postsubmit, post.base.extraRefs =
      createExtraRefs job.repos branch cli.baseConfig.pathAliases) := by
  obtain ⟨hpre, hpost, hperi⟩ := convertJob_parts hok
  refine ⟨?_, ?_, ?_⟩
  · intro per hmem
    rw [Option.mem_def] at hmem
    rw [hmem] at hperi
    exact mkPeriodic_refs hperi
  · intro pre hmem
    rw [Option.mem_def] at hmem
    rw [hmem] at hpre
    exact mkPresubmit_refs hpre
  · intro post hmem
    rw [Option.mem_def] at hmem
    rw [hmem] at hpost
    exact mkPostsubmit_refs hpost

/-- Witness for C7 at the spec §8 example (owning repo `org/sample`,
extra repo `other/dep`): the periodic's extra-refs list begins with the
owning repository at the target branch, followed by `other/dep`. -/
theorem periodic_extra_refs_witness :
    ∃ cv, convertJob witClientTG witCatalog witPeriodicJob "master" = .ok cv ∧
      (∀ per ∈ cv.periodic, per.base.extraRefs =
        extraRef ("org" ++ "/" ++ "sample") "master" [] ::
          createExtraRefs ["other/dep"] "master" []) ∧
      extraRef ("org" ++ "/" ++ "sample") "master" [] =
        { org := "org", repo := "sample", baseRef := "master" } := by
  have h1 : (convertJob witClientTG witCatalog witPeriodicJob "master").toOption.isSome =
      true := by decide
  obtain ⟨cv, hcv⟩ := Option.isSome_iff_exists.mp h1
  have hok : convertJob witClientTG witCatalog witPeriodicJob "master" = .ok cv := by
    cases he : convertJob witClientTG witCatalog witPeriodicJob "master" with
    | error e =>
      rw [he] at hcv
      exact Option.noConfusion hcv
    | ok v =>
      rw [he] at hcv
      cases hcv
      rfl
  have h := periodic_extra_refs witClientTG witCatalog witPeriodicJob "master" cv hok
  exact ⟨cv, hok, fun per hper => h.1 per hper, by decide⟩
